import Mathlib

/-!
Verification development for the flooding-claims retrieval pipeline.

Batch phase (scripts/gage_claims_50km.py): a BallTree over claim points is
queried once per gauge-footprint vertex with a 50 km haversine radius; the
matched claims are grouped by date of loss and the per-date groups are
appended, vertex by vertex, into the `dates` / `num_claims` columns of the
output row.

Interactive phase (scripts/final.py): rows are loaded, a centroid is taken
per gauge, `find_closest_gauges` ranks gauges by geodesic distance from a
target and `create_claims_timeline` flattens the ranked rows into events.

Real-valued coordinates model the batch spatial math; the interactive phase
is modelled over the rationals with the external geodesic routine abstracted
as a fallible function argument.
-/

namespace Flood

/-! ## Spherical distance as computed by the batch script

`hav x1 x2 y1 y2` is the haversine metric of the underlying tree library on
two 2-vectors `(x1, x2)` and `(y1, y2)`: per that library's documentation the
FIRST component is taken as latitude and the second as longitude, both in
radians:
  2 * arcsin (sqrt (sin^2 ((x1-y1)/2) + cos x1 * cos y1 * sin^2 ((x2-y2)/2))).
The batch script feeds the tree `[longitude, latitude]` vectors (in that
order), so the distance it actually uses is `treeDist` below, while the true
great-circle distance of the specification is `haversineKm`. -/

/-- Degrees to radians, as `np.radians`. -/
noncomputable def rad (x : ℝ) : ℝ := x * Real.pi / 180

/-- The library's haversine metric on radian 2-vectors, first component
treated as latitude. -/
noncomputable def hav (x1 x2 y1 y2 : ℝ) : ℝ :=
  2 * Real.arcsin (Real.sqrt ((Real.sin ((x1 - y1) / 2)) ^ 2 +
    Real.cos x1 * Real.cos y1 * (Real.sin ((x2 - y2) / 2)) ^ 2))

/-- The distance the batch script's tree actually computes between two
`(lon, lat)` degree pairs: the code passes `[longitude, latitude]` to the
tree, so longitude lands in the metric's latitude slot. -/
noncomputable def treeDist (p q : ℝ × ℝ) : ℝ :=
  hav (rad p.1) (rad p.2) (rad q.1) (rad q.2)

/-- The true haversine great-circle distance in kilometres between two
`(lon, lat)` degree pairs, on a sphere of Earth's mean radius 6371 km:
latitude in the metric's latitude slot. -/
noncomputable def haversineKm (p q : ℝ × ℝ) : ℝ :=
  6371 * hav (rad p.2) (rad p.1) (rad q.2) (rad q.1)

/-- The angular query radius used by the batch script: `50 / 6371.0`. -/
noncomputable def radius : ℝ := 50 / 6371

/-- `tree.query_radius(center, r)`: indices of all stored points whose tree
metric distance to the center is at most `r` (the library's documented exact
radius query). Points are the `(lon, lat)` degree pairs fed to the tree. -/
noncomputable def queryRadius (pts : List (ℝ × ℝ)) (c : ℝ × ℝ) (r : ℝ) :
    List ℕ :=
  (List.range pts.length).filter
    (fun i => @decide (treeDist (pts.getD i (0, 0)) c ≤ r)
      (Classical.propDecidable _))

/-! ## Batch pipeline over claims -/

/-- A cleaned claim row: coordinates in degrees, date of loss as an
abstract day number (`pd.to_datetime` succeeded, dates totally ordered). -/
structure ClaimPt where
  lon : ℝ
  lat : ℝ
  date : ℕ

/-- Indices returned by the per-vertex `tree.query_radius` call at footprint
vertex `v = (lon_g, lat_g)`. -/
noncomputable def vertexMatch (claims : List ClaimPt) (v : ℝ × ℝ) : List ℕ :=
  queryRadius (claims.map (fun c => (c.lon, c.lat))) v radius

/-- The `dateOfLoss` column of `claims.iloc[ind]` for a vertex's matches. -/
noncomputable def vertexDates (claims : List ClaimPt) (v : ℝ × ℝ) : List ℕ :=
  (vertexMatch claims v).filterMap (fun i => (claims.get? i).map ClaimPt.date)

/-- Ascending list of distinct dates, as the index of
`groupby('dateOfLoss')` (pandas sorts group keys). -/
def sortedDates (ds : List ℕ) : List ℕ :=
  ds.dedup.insertionSort (fun a b => a ≤ b)

/-- `matched_claims.groupby('dateOfLoss').size()`: ascending distinct dates
paired with their multiplicities. -/
def groupByDate (ds : List ℕ) : List (ℕ × ℕ) :=
  (sortedDates ds).map (fun d => (d, ds.count d))

/-- One vertex's contribution: the `if len(ind) > 0` guarded groupby. -/
noncomputable def vertexGroups (claims : List ClaimPt) (v : ℝ × ℝ) :
    List (ℕ × ℕ) :=
  if (vertexMatch claims v).isEmpty then []
  else groupByDate (vertexDates claims v)

/-- The per-gauge loop body of `main`: iterate `zip(lon_arr, lat_arr)`,
extending `gage_dates` and `gage_counts` with each vertex's group keys and
sizes. -/
noncomputable def processGage (claims : List ClaimPt) (lonArr latArr : List ℝ) :
    List ℕ × List ℕ :=
  (lonArr.zip latArr).foldl
    (fun acc v => (acc.1 ++ (vertexGroups claims v).map Prod.fst,
                   acc.2 ++ (vertexGroups claims v).map Prod.snd))
    ([], [])

/-- Union of the matched claim indices over all footprint vertices (the
deduplicated matched-claim set of the specification). -/
noncomputable def matchedSet (claims : List ClaimPt) (lonArr latArr : List ℝ) :
    Finset ℕ :=
  ((lonArr.zip latArr).flatMap (fun v => vertexMatch claims v)).toFinset

/-! ## Output row construction (`row = gage.to_dict()`; two keys added) -/

/-- An opaque cell value of a gauge record. -/
inductive Val where
  | str (s : String)
  | num (q : ℚ)
  | nlist (l : List ℕ)
deriving DecidableEq

/-- Python dict assignment `row[k] = v`: overwrite in place when the key is
present (dict keys are unique, so the first occurrence is the occurrence),
append otherwise. -/
def setKey : List (String × Val) → String → Val → List (String × Val)
  | [], k, v => [(k, v)]
  | p :: row, k, v => if p.1 = k then (k, v) :: row else p :: setKey row k v

/-- Dict lookup `row[k]`. -/
def getKey (row : List (String × Val)) (k : String) : Option Val :=
  (row.find? (fun p => p.1 = k)).map Prod.snd

/-- One input gauge record: its dict of fields together with the already
parsed `parse_coord` longitude and latitude arrays. -/
structure GageRec where
  fields : List (String × Val)
  lonArr : List ℝ
  latArr : List ℝ

/-- Body of the output loop: `row = gage.to_dict(); row['dates'] = ...;
row['num_claims'] = ...`. -/
noncomputable def buildRow (claims : List ClaimPt) (g : GageRec) :
    List (String × Val) :=
  let r := processGage claims g.lonArr g.latArr
  setKey (setKey g.fields "dates" (Val.nlist r.1)) "num_claims" (Val.nlist r.2)

/-- The whole batch loop over gauges. -/
noncomputable def mainLoop (claims : List ClaimPt) (gages : List GageRec) :
    List (List (String × Val)) :=
  gages.map (buildRow claims)

/-! ## Interactive phase (`final.py`)

Coordinates and distances of the interactive phase are modelled over `ℚ`;
the external ellipsoidal geodesic routine is abstracted as a function
argument `geo` returning `none` when the computation raises (the code's
`except` branch, which records `np.inf` for that row). -/

/-- `np.mean(x) if x else np.nan` on a coordinate list: `none` models NaN. -/
def centerOf (xs : List ℚ) : Option ℚ :=
  if xs.isEmpty then none else some (xs.sum / xs.length)

/-- A loaded gauge row as consumed by `find_closest_gauges` /
`create_claims_timeline`. -/
structure GRow where
  gauge_id : ℕ
  center_lon : Option ℚ
  center_lat : Option ℚ
  dates : List ℕ
  num_claims : List ℕ
  discharge : ℚ
deriving DecidableEq

/-- `df.dropna(subset=['center_lat', 'center_lon'])`. -/
def cleanRows (rows : List GRow) : List GRow :=
  rows.filter (fun r => r.center_lat.isSome && r.center_lon.isSome)

/-- The `(row['center_lat'], row['center_lon'])` pair handed to the geodesic
routine (defaults are irrelevant: callers have both components present). -/
def rowCenter (r : GRow) : ℚ × ℚ := (r.center_lat.getD 0, r.center_lon.getD 0)

/-- One entry of the `distances` list: `none` models the `np.inf` recorded
when the geodesic computation raises. -/
def distOf (geo : ℚ × ℚ → ℚ × ℚ → Option ℚ) (t : ℚ × ℚ) (r : GRow) :
    Option ℚ := geo t (rowCenter r)

/-- A row of the returned frame, carrying its `distance_km` column. -/
structure Ranked where
  row : GRow
  distance_km : Option ℚ
deriving DecidableEq

/-- Ascending order on the `distance_km` column, `none` (`np.inf`) largest. -/
def rankedLE (a b : Ranked) : Prop :=
  match a.distance_km, b.distance_km with
  | some x, some y => x ≤ y
  | some _, none => True
  | none, some _ => False
  | none, none => True

instance : DecidableRel rankedLE := fun a b => by
  obtain ⟨ra, da⟩ := a
  obtain ⟨rb, db⟩ := b
  rcases da with _ | x <;> rcases db with _ | y <;> unfold rankedLE <;>
    exact inferInstanceAs (Decidable _)

instance : IsTotal Ranked rankedLE :=
  ⟨fun a b => by
    obtain ⟨ra, da⟩ := a
    obtain ⟨rb, db⟩ := b
    rcases da with _ | x <;> rcases db with _ | y
    · exact Or.inl trivial
    · exact Or.inr trivial
    · exact Or.inl trivial
    · exact le_total x y⟩

instance : IsTrans Ranked rankedLE :=
  ⟨fun a b c hab hbc => by
    obtain ⟨ra, da⟩ := a
    obtain ⟨rb, db⟩ := b
    obtain ⟨rc, dc⟩ := c
    rcases da with _ | x <;> rcases db with _ | y <;> rcases dc with _ | z <;>
      first
        | exact trivial
        | exact hab.elim
        | exact hbc.elim
        | exact le_trans hab hbc⟩

/-- The contract of the frame library's `sort_values('distance_km')`: it
returns some permutation of the input rows that is sorted ascending by the
distance column. The default quicksort is documented as NOT stable, so the
relative order of equal-distance rows is unspecified; the sort routine is
therefore abstracted as an arbitrary function satisfying exactly this
contract, nothing more. -/
def SortValues : Type :=
  {f : List Ranked → List Ranked //
    ∀ l, (f l).Perm l ∧ List.Sorted rankedLE (f l)}

/-- `find_closest_gauges`: drop undefined centroids, attach distances, keep
rows with `distance_km <= max_distance_km`, sort ascending by distance
(`s` is the library sort routine, constrained only by its contract). -/
def find_closest_gauges (s : SortValues)
    (geo : ℚ × ℚ → ℚ × ℚ → Option ℚ) (rows : List GRow)
    (t : ℚ × ℚ) (maxKm : ℚ) : List Ranked :=
  let cleaned := cleanRows rows
  let withD := cleaned.map (fun r => Ranked.mk r (distOf geo t r))
  let nearby := withD.filter (fun x =>
    match x.distance_km with
    | some d => decide (d ≤ maxKm)
    | none => false)
  s.val nearby

/-- One admissible implementation of the sort contract; on two-element
inputs it coincides with what the underlying sort actually does there
(numpy falls back to insertion sort on tiny arrays). -/
def sortValuesImpl : SortValues :=
  ⟨List.insertionSort rankedLE, fun l =>
    ⟨List.perm_insertionSort rankedLE l,
     List.sorted_insertionSort rankedLE l⟩⟩

/-- A flattened timeline row. -/
structure Event where
  gauge_id : ℕ
  date : ℕ
  claims : ℕ
  discharge : ℚ
  distance_km : ℚ
deriving DecidableEq

/-- The event built for gauge row `r` from one `(date, count)` pair:
`row.get('distance_km', 0)` defaults a missing distance to 0. -/
def eventOf (r : Ranked) (p : ℕ × ℕ) : Event :=
  Event.mk r.row.gauge_id p.1 p.2 r.row.discharge (r.distance_km.getD 0)

/-- `create_claims_timeline`: per row, when both `dates` and `num_claims`
are truthy (non-empty), emit one event per `zip(dates, num_claims)` pair, in
row order then pair order; no re-sort afterwards. -/
def create_claims_timeline (rows : List Ranked) : List Event :=
  rows.flatMap (fun r =>
    if r.row.dates ≠ [] ∧ r.row.num_claims ≠ [] then
      (r.row.dates.zip r.row.num_claims).map (eventOf r)
    else [])

/-! ## Helper lemmas -/

lemma foldl_append_pair {α β γ : Type} (f : α → List β) (g : α → List γ) :
    ∀ (l : List α) (a : List β) (b : List γ),
      l.foldl (fun acc v => (acc.1 ++ f v, acc.2 ++ g v)) (a, b) =
        (a ++ l.flatMap f, b ++ l.flatMap g)
  | [], a, b => by simp
  | v :: l, a, b => by
    simp only [List.foldl_cons, List.flatMap_cons]
    rw [foldl_append_pair f g l]
    simp [List.append_assoc]

lemma vertexMatch_lt (claims : List ClaimPt) (v : ℝ × ℝ) :
    ∀ i ∈ vertexMatch claims v, i < claims.length := by
  intro i hi
  unfold vertexMatch queryRadius at hi
  have h := List.mem_of_mem_filter hi
  simpa using h

lemma vertexGroups_eq (claims : List ClaimPt) (v : ℝ × ℝ) :
    vertexGroups claims v = groupByDate (vertexDates claims v) := by
  unfold vertexGroups
  split
  · rename_i h
    have hm : vertexMatch claims v = [] := by simpa using h
    simp [vertexDates, hm, groupByDate, sortedDates]
  · rfl

lemma processGage_eq_flatten (claims : List ClaimPt) (la lb : List ℝ) :
    processGage claims la lb =
      ((la.zip lb).flatMap (fun v => (vertexGroups claims v).map Prod.fst),
       (la.zip lb).flatMap (fun v => (vertexGroups claims v).map Prod.snd)) := by
  unfold processGage
  rw [foldl_append_pair]
  simp

lemma sortedDates_sorted (ds : List ℕ) :
    List.Sorted (fun a b => a ≤ b) (sortedDates ds) :=
  List.sorted_insertionSort (fun a b => a ≤ b) ds.dedup

lemma groupByDate_fst_sorted (ds : List ℕ) :
    List.Sorted (fun a b => a ≤ b) ((groupByDate ds).map Prod.fst) := by
  have h : (groupByDate ds).map Prod.fst = sortedDates ds := by
    unfold groupByDate
    rw [List.map_map]
    have hc : (Prod.fst ∘ fun d => (d, ds.count d)) = id := rfl
    rw [hc, List.map_id]
  rw [h]
  exact sortedDates_sorted ds

lemma groupByDate_snd_sum (ds : List ℕ) :
    ((groupByDate ds).map Prod.snd).sum = ds.length := by
  have h : (groupByDate ds).map Prod.snd =
      (sortedDates ds).map (fun d => ds.count d) := by
    unfold groupByDate
    rw [List.map_map]
    simp [Function.comp]
  rw [h]
  have hperm : ((sortedDates ds).map (fun d => ds.count d)).Perm
      (ds.dedup.map (fun d => ds.count d)) :=
    (List.perm_insertionSort (fun a b => a ≤ b) ds.dedup).map _
  rw [hperm.sum_eq]
  exact List.sum_map_count_dedup_eq_length ds

lemma filterMap_dates_length (claims : List ClaimPt) :
    ∀ (l : List ℕ), (∀ i ∈ l, i < claims.length) →
      (l.filterMap (fun i => (claims.get? i).map ClaimPt.date)).length = l.length
  | [], _ => rfl
  | i :: l, h => by
    have hi : i < claims.length := h i (List.mem_cons_self i l)
    have hg : claims.get? i = some (claims.get ⟨i, hi⟩) := List.get?_eq_get hi
    simp only [List.filterMap_cons, hg, Option.map_some', List.length_cons]
    rw [filterMap_dates_length claims l (fun j hj => h j (List.mem_cons_of_mem _ hj))]

lemma vertexDates_length (claims : List ClaimPt) (v : ℝ × ℝ) :
    (vertexDates claims v).length = (vertexMatch claims v).length :=
  filterMap_dates_length claims _ (vertexMatch_lt claims v)

lemma zip_take_min {α β : Type} :
    ∀ (la : List α) (lb : List β),
      (la.take (min la.length lb.length)).zip
        (lb.take (min la.length lb.length)) = la.zip lb
  | [], _ => by simp
  | _ :: _, [] => by simp
  | a :: la, b :: lb => by
    simp only [List.length_cons, Nat.succ_min_succ, List.take_succ_cons,
      List.zip_cons_cons]
    rw [zip_take_min la lb]

/-! ## Evaluation lemmas for the spherical metric -/

lemma rad_ninety : rad 90 = Real.pi / 2 := by unfold rad; ring

lemma rad_neg_ninety : rad (-90) = -(Real.pi / 2) := by unfold rad; ring

lemma cos_rad_ninety : Real.cos (rad 90) = 0 := by
  rw [rad_ninety, Real.cos_pi_div_two]

lemma cos_rad_neg_ninety : Real.cos (rad (-90)) = 0 := by
  rw [rad_neg_ninety, Real.cos_neg, Real.cos_pi_div_two]

lemma hav_same_first (x1 : ℝ) (h : Real.cos x1 = 0) (x2 y2 : ℝ) :
    hav x1 x2 x1 y2 = 0 := by
  unfold hav
  rw [sub_self, zero_div, Real.sin_zero, h]
  norm_num [Real.sqrt_zero, Real.arcsin_zero]

lemma treeDist_same_lon (l a b : ℝ) (h : Real.cos (rad l) = 0) :
    treeDist (l, a) (l, b) = 0 :=
  hav_same_first (rad l) h (rad a) (rad b)

lemma treeDist_opposite (a b : ℝ) : treeDist (90, a) (-90, b) = Real.pi := by
  unfold treeDist hav
  rw [rad_ninety, rad_neg_ninety, Real.cos_pi_div_two]
  have h1 : (Real.pi / 2 - -(Real.pi / 2)) / 2 = Real.pi / 2 := by ring
  rw [h1, Real.sin_pi_div_two]
  norm_num [Real.sqrt_one, Real.arcsin_one]
  ring

lemma treeDist_opposite' (a b : ℝ) : treeDist (-90, a) (90, b) = Real.pi := by
  unfold treeDist hav
  rw [rad_ninety, rad_neg_ninety, Real.cos_neg, Real.cos_pi_div_two]
  have h1 : (-(Real.pi / 2) - Real.pi / 2) / 2 = -(Real.pi / 2) := by ring
  rw [h1, Real.sin_neg, Real.sin_pi_div_two]
  norm_num [Real.sqrt_one, Real.arcsin_one]
  ring

lemma radius_nonneg : (0 : ℝ) ≤ radius := by unfold radius; norm_num

lemma radius_lt_pi : radius < Real.pi := by
  have h : radius < 3 := by unfold radius; norm_num
  exact lt_trans h Real.pi_gt_three

lemma queryRadius_mem (pts : List (ℝ × ℝ)) (c : ℝ × ℝ) (r : ℝ) (i : ℕ) :
    i ∈ queryRadius pts c r ↔
      i < pts.length ∧ treeDist (pts.getD i (0, 0)) c ≤ r := by
  unfold queryRadius
  rw [List.mem_filter, List.mem_range, decide_eq_true_eq]

lemma queryRadius_singleton (p v : ℝ × ℝ) (h : treeDist p v ≤ radius) :
    queryRadius [p] v radius = [0] := by
  unfold queryRadius
  have hr : List.range 1 = [0] := rfl
  simp [hr, List.filter_cons, h]

lemma queryRadius_pair_fst (p q v : ℝ × ℝ) (hp : treeDist p v ≤ radius)
    (hq : ¬ treeDist q v ≤ radius) : queryRadius [p, q] v radius = [0] := by
  unfold queryRadius
  have hr : List.range 2 = [0, 1] := rfl
  simp [hr, List.filter_cons, hp, hq]

lemma queryRadius_pair_snd (p q v : ℝ × ℝ) (hp : ¬ treeDist p v ≤ radius)
    (hq : treeDist q v ≤ radius) : queryRadius [p, q] v radius = [1] := by
  unfold queryRadius
  have hr : List.range 2 = [0, 1] := rfl
  simp [hr, List.filter_cons, hp, hq]

lemma not_pi_le_radius : ¬ Real.pi ≤ radius := not_le.mpr radius_lt_pi

/-! ## Dict-key lemmas -/

lemma getKey_setKey_self :
    ∀ (row : List (String × Val)) (k : String) (v : Val),
      getKey (setKey row k v) k = some v
  | [], k, v => by simp [setKey, getKey]
  | p :: row, k, v => by
    by_cases h : p.1 = k
    · simp [setKey, h, getKey, List.find?_cons]
    · simpa [setKey, h, getKey, List.find?_cons]
        using getKey_setKey_self row k v

lemma getKey_setKey_of_ne :
    ∀ (row : List (String × Val)) (k k' : String) (v : Val), k' ≠ k →
      getKey (setKey row k v) k' = getKey row k'
  | [], k, k', v, h => by simp [setKey, getKey, Ne.symm h]
  | p :: row, k, k', v, h => by
    by_cases hp : p.1 = k
    · simp [setKey, hp, getKey, List.find?_cons, Ne.symm h]
    · by_cases hp' : p.1 = k'
      · simp [setKey, hp, getKey, List.find?_cons, hp', h]
      · simpa [setKey, hp, getKey, List.find?_cons, hp']
          using getKey_setKey_of_ne row k k' v h

lemma setKey_keys_of_not_mem :
    ∀ (row : List (String × Val)) (k : String) (v : Val),
      k ∉ row.map Prod.fst →
      (setKey row k v).map Prod.fst = row.map Prod.fst ++ [k]
  | [], k, v, _ => rfl
  | p :: row, k, v, h => by
    have hp : p.1 ≠ k := by
      intro hc
      exact h (by simp [hc])
    simp only [setKey, if_neg hp, List.map_cons, List.cons_append,
      List.cons.injEq, true_and]
    exact setKey_keys_of_not_mem row k v (fun hc => h (by simp [hc]))

/-! ## Concrete evaluations at the counterexample inputs

All the concrete footprints below sit on the meridians lon = 90 or
lon = -90, where the swapped-argument tree metric degenerates:
`cos (rad (±90)) = 0`, so two points on the same such meridian are at tree
distance 0 (matched at any radius) while points on the two opposite
meridians are at tree distance pi (never matched at radius 50 km). -/

lemma treeDist_90_mem (a b : ℝ) : treeDist (90, a) (90, b) ≤ radius := by
  rw [treeDist_same_lon 90 a b cos_rad_ninety]
  exact radius_nonneg

lemma treeDist_n90_mem (a b : ℝ) : treeDist (-90, a) (-90, b) ≤ radius := by
  rw [treeDist_same_lon (-90) a b cos_rad_neg_ninety]
  exact radius_nonneg

lemma vertexMatch_single_same (d : ℕ) (a b : ℝ) :
    vertexMatch [⟨90, a, d⟩] (90, b) = [0] := by
  unfold vertexMatch
  simp only [List.map_cons, List.map_nil]
  exact queryRadius_singleton _ _ (treeDist_90_mem a b)

lemma groupByDate_single (d : ℕ) : groupByDate [d] = [(d, 1)] := by
  simp [groupByDate, sortedDates]

lemma vertexGroups_single_same (d : ℕ) (a b : ℝ) :
    vertexGroups [⟨90, a, d⟩] (90, b) = [(d, 1)] := by
  rw [vertexGroups_eq]
  have hm : vertexDates [⟨90, a, d⟩] (90, b) = [d] := by
    unfold vertexDates
    rw [vertexMatch_single_same]
    rfl
  rw [hm, groupByDate_single]

lemma vertexMatch_c4_fst (d1 d2 : ℕ) :
    vertexMatch [⟨90, 0, d1⟩, ⟨-90, 0, d2⟩] (90, 0) = [0] := by
  unfold vertexMatch
  simp only [List.map_cons, List.map_nil]
  refine queryRadius_pair_fst _ _ _ (treeDist_90_mem 0 0) ?_
  rw [treeDist_opposite' 0 0]
  exact not_pi_le_radius

lemma vertexMatch_c4_snd (d1 d2 : ℕ) :
    vertexMatch [⟨90, 0, d1⟩, ⟨-90, 0, d2⟩] (-90, 0) = [1] := by
  unfold vertexMatch
  simp only [List.map_cons, List.map_nil]
  refine queryRadius_pair_snd _ _ _ ?_ (treeDist_n90_mem 0 0)
  rw [treeDist_opposite 0 0]
  exact not_pi_le_radius

lemma vertexGroups_c4_fst (d1 d2 : ℕ) :
    vertexGroups [⟨90, 0, d1⟩, ⟨-90, 0, d2⟩] (90, 0) = [(d1, 1)] := by
  rw [vertexGroups_eq]
  have hm : vertexDates [⟨90, 0, d1⟩, ⟨-90, 0, d2⟩] (90, 0) = [d1] := by
    unfold vertexDates
    rw [vertexMatch_c4_fst]
    rfl
  rw [hm, groupByDate_single]

lemma vertexGroups_c4_snd (d1 d2 : ℕ) :
    vertexGroups [⟨90, 0, d1⟩, ⟨-90, 0, d2⟩] (-90, 0) = [(d2, 1)] := by
  rw [vertexGroups_eq]
  have hm : vertexDates [⟨90, 0, d1⟩, ⟨-90, 0, d2⟩] (-90, 0) = [d2] := by
    unfold vertexDates
    rw [vertexMatch_c4_snd]
    rfl
  rw [hm, groupByDate_single]

/-! ## Claim theorems -/

/-- C1: FALSIFIED (coordinate-order bug). The claim states that a point is
returned by the radius query iff its true haversine great-circle distance to
the center is at most r. The code feeds `[longitude, latitude]` vectors to a
tree whose haversine metric reads the first component as latitude, so the
distance actually used is wrong. Concretely: a claim point at lon 90, lat 0
IS returned by the 50 km query around center lon 90, lat 0.9 (the swapped
metric evaluates to 0 there), although the true haversine distance between
them exceeds 50 km (it is 6371 * pi / 200, about 100.07 km) — a false
positive. -/
theorem C1_lonlat_swap_false_positive :
    0 ∈ queryRadius [((90 : ℝ), 0)] ((90 : ℝ), 9 / 10) radius ∧
    50 < haversineKm ((90 : ℝ), 0) ((90 : ℝ), 9 / 10) := by
  have hpi := Real.pi_pos
  constructor
  · rw [queryRadius_singleton _ _ (treeDist_90_mem 0 (9 / 10))]
    exact List.mem_singleton.mpr rfl
  · unfold haversineKm hav rad
    dsimp only
    have e1 : ((90 : ℝ) * Real.pi / 180 - 90 * Real.pi / 180) / 2 = 0 := by
      ring
    have e2 : ((0 : ℝ) * Real.pi / 180 - 9 / 10 * Real.pi / 180) / 2 =
        -(Real.pi / 400) := by ring
    have e3 : (0 : ℝ) * Real.pi / 180 = 0 := by ring
    rw [e1, e2, e3, Real.sin_zero, Real.cos_zero, Real.sin_neg]
    have e4 : (-Real.sin (Real.pi / 400)) ^ 2 +
        1 * Real.cos (9 / 10 * Real.pi / 180) * (0 : ℝ) ^ 2 =
        Real.sin (Real.pi / 400) ^ 2 := by ring
    rw [e4, Real.sqrt_sq_eq_abs,
      abs_of_nonneg (Real.sin_nonneg_of_nonneg_of_le_pi (by positivity)
        (by linarith)),
      Real.arcsin_sin (by linarith) (by linarith)]
    have h3 := Real.pi_gt_three
    linarith

/-- C2 counterexample: one claim (lon 90, lat 0, date 5) and a footprint
whose two vertices both sit at (90, 0) (e.g. a closed ring repeating its
first vertex). Both vertex queries match the single claim and the loop
appends each vertex's groupby output, so date 5 is emitted twice with count
1 each — the claim is counted once per vertex match, not once per date —
although the deduplicated matched-claim set has exactly one element. -/
theorem C2_counterexample :
    processGage [⟨90, 0, 5⟩] [90, 90] [0, 0] = ([5, 5], [1, 1]) ∧
    (matchedSet [⟨90, 0, 5⟩] [90, 90] [0, 0]).card = 1 := by
  have hz : ([90, 90] : List ℝ).zip ([0, 0] : List ℝ) =
      [(90, 0), (90, 0)] := rfl
  constructor
  · rw [processGage_eq_flatten, hz]
    simp [vertexGroups_single_same]
  · unfold matchedSet
    rw [hz]
    simp [vertexMatch_single_same]

/-- C2 (amended): the expansion step issues one radius query per vertex and
appends that vertex's per-date groupby output to the gauge's arrays; no
union or deduplication of matched claim indices happens across vertices, so
a claim matched by k vertices is counted once per (vertex, date) pair. -/
theorem C2_per_vertex_no_dedup (claims : List ClaimPt) (la lb : List ℝ) :
    processGage claims la lb =
      ((la.zip lb).flatMap
        (fun v => (groupByDate (vertexDates claims v)).map Prod.fst),
       (la.zip lb).flatMap
        (fun v => (groupByDate (vertexDates claims v)).map Prod.snd)) := by
  rw [processGage_eq_flatten]
  simp only [vertexGroups_eq]

/-- C3 counterexample: one claim and three coincident vertices at (90, 0):
the per-date counts sum to 3 (once per vertex match) while the deduplicated
matched-claim set of the gauge has cardinality 1, so aggregation is not
count-preserving in the claimed sense. -/
theorem C3_counterexample :
    (processGage [⟨90, 0, 5⟩] [90, 90, 90] [0, 0, 0]).2.sum = 3 ∧
    (matchedSet [⟨90, 0, 5⟩] [90, 90, 90] [0, 0, 0]).card = 1 := by
  have hz : ([90, 90, 90] : List ℝ).zip ([0, 0, 0] : List ℝ) =
      [(90, 0), (90, 0), (90, 0)] := rfl
  constructor
  · rw [processGage_eq_flatten, hz]
    simp [vertexGroups_single_same]
  · unfold matchedSet
    rw [hz]
    simp [vertexMatch_single_same]

/-- C3 (amended): the sum of the per-date counts over a gauge's output
equals the TOTAL number of per-vertex matches (each vertex's matched claims
counted separately, with multiplicity), not the cardinality of the
deduplicated matched set. -/
theorem C3_sum_eq_vertex_match_total (claims : List ClaimPt)
    (la lb : List ℝ) :
    (processGage claims la lb).2.sum =
      ((la.zip lb).map (fun v => (vertexMatch claims v).length)).sum := by
  rw [processGage_eq_flatten]
  induction la.zip lb with
  | nil => rfl
  | cons v l ih =>
    simp only [List.flatMap_cons, List.map_cons, List.sum_append,
      List.sum_cons, ih]
    congr 1
    rw [vertexGroups_eq, groupByDate_snd_sum, vertexDates_length]

/-- C4 counterexample: two claims on opposite meridians with dates 9 and 3
and a two-vertex footprint matching them in that order: the gauge's dates
array is [9, 3], which is not sorted ascending over the whole gauge. -/
theorem C4_counterexample :
    (processGage [⟨90, 0, 9⟩, ⟨-90, 0, 3⟩] [90, -90] [0, 0]).1 = [9, 3] ∧
    ¬ List.Sorted (fun a b => a ≤ b) [9, 3] := by
  constructor
  · have hz : ([90, -90] : List ℝ).zip ([0, 0] : List ℝ) =
        [(90, 0), (-90, 0)] := rfl
    rw [processGage_eq_flatten, hz]
    simp [vertexGroups_c4_fst, vertexGroups_c4_snd]
  · decide

/-- C4 (amended): the dates and counts arrays of a gauge are parallel (equal
length), and each per-vertex block of the dates array is sorted ascending
(the groupby sorts its keys); the whole-gauge array is the concatenation of
these blocks in vertex order and need not be globally sorted. Determinism
holds trivially: the aggregation is a pure function of its input. -/
theorem C4_parallel_blockwise_sorted (claims : List ClaimPt)
    (la lb : List ℝ) :
    (processGage claims la lb).1.length =
      (processGage claims la lb).2.length ∧
    ∀ v ∈ la.zip lb,
      List.Sorted (fun a b => a ≤ b)
        ((vertexGroups claims v).map Prod.fst) := by
  constructor
  · rw [processGage_eq_flatten]
    induction la.zip lb with
    | nil => rfl
    | cons v l ih =>
      simp only [List.flatMap_cons, List.length_append, List.length_map, ih]
  · intro v _
    rw [vertexGroups_eq]
    exact groupByDate_fst_sorted _

/-- Witness for C4: the amended claim instantiated at a one-vertex footprint
with no claims. -/
theorem C4_parallel_blockwise_sorted_witness :
    (processGage [] [(1 : ℝ)] [2]).1.length =
      (processGage [] [(1 : ℝ)] [2]).2.length ∧
    List.Sorted (fun a b => a ≤ b)
      ((vertexGroups [] ((1 : ℝ), 2)).map Prod.fst) :=
  ⟨(C4_parallel_blockwise_sorted [] [1] [2]).1,
   (C4_parallel_blockwise_sorted [] [1] [2]).2 (1, 2) (by simp)⟩

/-- C6 counterexample: a footprint whose longitude array has one entry and
whose latitude array has two is NOT skipped: `zip` pairs the first entries
and the record still contributes its matches (here the single claim at
(90, 0), date 7). The claim predicts the empty output ([], []). -/
theorem C6_counterexample :
    processGage [⟨90, 0, 7⟩] [90] [0, 44] = ([7], [1]) := by
  have hz : ([90] : List ℝ).zip ([0, 44] : List ℝ) = [(90, 0)] := rfl
  rw [processGage_eq_flatten, hz]
  simp [vertexGroups_single_same]

/-- C6 (amended): a record with unequal-length coordinate arrays is not
skipped; its vertices are paired positionally up to the shorter length and
the unpaired tail is ignored, so the record behaves exactly like its
truncated prefix (and each record is processed independently of the rest). -/
theorem C6_zip_truncation (claims : List ClaimPt) (la lb : List ℝ) :
    processGage claims la lb =
      processGage claims (la.take (min la.length lb.length))
        (lb.take (min la.length lb.length)) := by
  unfold processGage
  rw [zip_take_min]

lemma create_claims_timeline_eq (rows : List Ranked) :
    create_claims_timeline rows =
      rows.flatMap (fun r =>
        (r.row.dates.zip r.row.num_claims).map (eventOf r)) := by
  unfold create_claims_timeline
  congr 1
  funext r
  split
  · rfl
  · rename_i hng
    rcases not_and_or.mp hng with hd | hc
    · rw [not_ne_iff.mp hd]
      rfl
    · rw [not_ne_iff.mp hc, List.zip_nil_right]
      rfl

lemma timeline_length_aux :
    ∀ (rows : List Ranked),
      (∀ r ∈ rows, r.row.dates.length = r.row.num_claims.length) →
      (rows.flatMap (fun r =>
        (r.row.dates.zip r.row.num_claims).map (eventOf r))).length =
        (rows.map (fun r => r.row.dates.length)).sum
  | [], _ => rfl
  | r :: l, h => by
    simp only [List.flatMap_cons, List.length_append, List.length_map,
      List.map_cons, List.sum_cons, List.length_zip]
    rw [h r (List.mem_cons_self r l), min_self,
      timeline_length_aux l (fun s hs => h s (List.mem_cons_of_mem _ hs))]

/-- C5 (amended): for every sort routine satisfying the library's
sort contract, the output of find_closest_gauges is sorted ascending by its
distance column, and it is a permutation of the in-radius cleaned rows (the
result SET is determined by the input); the sort consults only the distance
column, so no gaugeId tie-break is applied, and the relative order of
equal-distance rows is not specified (the default sort is unstable). -/
theorem C5_sorted_by_distance (s : SortValues)
    (geo : ℚ × ℚ → ℚ × ℚ → Option ℚ)
    (rows : List GRow) (t : ℚ × ℚ) (maxKm : ℚ) :
    List.Sorted rankedLE (find_closest_gauges s geo rows t maxKm) ∧
    (find_closest_gauges s geo rows t maxKm).Perm
      (((cleanRows rows).map (fun r => Ranked.mk r (distOf geo t r))).filter
        (fun x => match x.distance_km with
          | some d => decide (d ≤ maxKm)
          | none => false)) :=
  ⟨(s.2 _).2, (s.2 _).1⟩

/-- C5 counterexample: two gauges at identical distance 0 from the target,
fed through an admissible implementation of the sort contract that matches
the library's actual behavior on a two-row frame, come back with gauge_id 2
before gauge_id 1 — not in gaugeId order, refuting the claimed tie-break. -/
theorem C5_counterexample :
    ((find_closest_gauges sortValuesImpl (fun _ _ => some 0)
        [⟨2, some 0, some 0, [], [], 0⟩, ⟨1, some 0, some 0, [], [], 0⟩]
        (0, 0) 50).map (fun x => x.row.gauge_id) = [2, 1]) ∧
    ((find_closest_gauges sortValuesImpl (fun _ _ => some 0)
        [⟨2, some 0, some 0, [], [], 0⟩, ⟨1, some 0, some 0, [], [], 0⟩]
        (0, 0) 50).map Ranked.distance_km = [some 0, some 0]) := by
  constructor
  · rfl
  · rfl

/-- C7: a zero-vertex footprint still produces an output row whose dates and
num_claims cells are the empty list; at load time the centroid of an empty
vertex list is undefined (none / NaN); and any loaded row whose centroid
longitude is undefined is silently excluded from find_closest_gauges output
for every target and every radius. -/
theorem C7_empty_footprint_excluded (claims : List ClaimPt)
    (fields : List (String × Val)) (s : SortValues)
    (geo : ℚ × ℚ → ℚ × ℚ → Option ℚ)
    (rows : List GRow) (t : ℚ × ℚ) (maxKm : ℚ) (r : GRow) :
    getKey (buildRow claims ⟨fields, [], []⟩) "dates" =
      some (Val.nlist []) ∧
    getKey (buildRow claims ⟨fields, [], []⟩) "num_claims" =
      some (Val.nlist []) ∧
    centerOf [] = none ∧
    (r.center_lon = none →
      ∀ x ∈ find_closest_gauges s geo rows t maxKm, x.row ≠ r) := by
  have hb : buildRow claims ⟨fields, [], []⟩ =
      setKey (setKey fields "dates" (Val.nlist [])) "num_claims"
        (Val.nlist []) := rfl
  refine ⟨?_, ?_, rfl, ?_⟩
  · rw [hb, getKey_setKey_of_ne _ _ _ _ (by decide), getKey_setKey_self]
  · rw [hb, getKey_setKey_self]
  · intro hr x hx hxr
    unfold find_closest_gauges at hx
    have hx' := (s.2 _).1.mem_iff.mp hx
    have hmem := List.mem_of_mem_filter hx'
    obtain ⟨r', hr', hEq⟩ := List.mem_map.mp hmem
    have hclean := List.of_mem_filter hr'
    rw [← hEq] at hxr
    simp only at hxr
    rw [hxr, hr] at hclean
    simp at hclean

/-- Witness for C7: the theorem instantiated at a concrete empty footprint
and a concrete undefined-centroid row. -/
theorem C7_empty_footprint_excluded_witness :
    getKey (buildRow [] ⟨[("gauge_id", Val.str "G")], [], []⟩) "dates" =
      some (Val.nlist []) ∧
    centerOf [] = none ∧
    ((⟨3, none, none, [], [], 0⟩ : GRow).center_lon = none) ∧
    (∀ x ∈ find_closest_gauges sortValuesImpl (fun _ _ => some 0)
        [⟨3, none, none, [], [], 0⟩] (0, 0) 50,
      x.row ≠ (⟨3, none, none, [], [], 0⟩ : GRow)) :=
  ⟨(C7_empty_footprint_excluded [] [("gauge_id", Val.str "G")]
      sortValuesImpl (fun _ _ => some 0) [⟨3, none, none, [], [], 0⟩]
      (0, 0) 50 ⟨3, none, none, [], [], 0⟩).1,
   rfl, rfl,
   (C7_empty_footprint_excluded [] [("gauge_id", Val.str "G")]
      sortValuesImpl (fun _ _ => some 0) [⟨3, none, none, [], [], 0⟩]
      (0, 0) 50 ⟨3, none, none, [], [], 0⟩).2.2.2 rfl⟩

/-- C8: for ranked rows with parallel summary arrays, the timeline is
exactly one event per (date, count) pair of each gauge, in row order then
array order (a flat concatenation — no global re-sort by date), each event
carrying that gauge's discharge and distance; gauges with no pairs
contribute nothing, and the total event count is the sum of the per-gauge
pair counts. -/
theorem C8_one_event_per_pair (rows : List Ranked)
    (h : ∀ r ∈ rows, r.row.dates.length = r.row.num_claims.length) :
    create_claims_timeline rows =
      rows.flatMap (fun r =>
        (r.row.dates.zip r.row.num_claims).map (eventOf r)) ∧
    (create_claims_timeline rows).length =
      (rows.map (fun r => r.row.dates.length)).sum := by
  refine ⟨create_claims_timeline_eq rows, ?_⟩
  rw [create_claims_timeline_eq rows]
  exact timeline_length_aux rows h

/-- Witness for C8: a single ranked gauge with two (date, count) pairs. -/
theorem C8_one_event_per_pair_witness :
    (∀ r ∈ ([⟨⟨1, some 0, some 0, [10, 20], [2, 3], 5⟩, some 7⟩] :
        List Ranked), r.row.dates.length = r.row.num_claims.length) ∧
    (create_claims_timeline
        [⟨⟨1, some 0, some 0, [10, 20], [2, 3], 5⟩, some 7⟩] =
      ([⟨⟨1, some 0, some 0, [10, 20], [2, 3], 5⟩, some 7⟩] :
        List Ranked).flatMap (fun r =>
          (r.row.dates.zip r.row.num_claims).map (eventOf r)) ∧
     (create_claims_timeline
        [⟨⟨1, some 0, some 0, [10, 20], [2, 3], 5⟩, some 7⟩]).length =
      (([⟨⟨1, some 0, some 0, [10, 20], [2, 3], 5⟩, some 7⟩] :
        List Ranked).map (fun r => r.row.dates.length)).sum) :=
  ⟨by decide,
   C8_one_event_per_pair
     [⟨⟨1, some 0, some 0, [10, 20], [2, 3], 5⟩, some 7⟩] (by decide)⟩

/-- C9: the batch output row keeps every original field of the gauge record
unchanged (for the actual producer schema, whose field names do not include
the two new keys) and differs from it only by the appended dates and
num_claims fields. -/
theorem C9_frame_preserved (claims : List ClaimPt) (g : GageRec)
    (h1 : "dates" ∉ g.fields.map Prod.fst)
    (h2 : "num_claims" ∉ g.fields.map Prod.fst) :
    (∀ k, k ≠ "dates" → k ≠ "num_claims" →
      getKey (buildRow claims g) k = getKey g.fields k) ∧
    (buildRow claims g).map Prod.fst =
      g.fields.map Prod.fst ++ ["dates", "num_claims"] := by
  have hb : buildRow claims g =
      setKey (setKey g.fields "dates"
          (Val.nlist (processGage claims g.lonArr g.latArr).1))
        "num_claims"
        (Val.nlist (processGage claims g.lonArr g.latArr).2) := rfl
  constructor
  · intro k hk1 hk2
    rw [hb, getKey_setKey_of_ne _ _ _ _ hk2, getKey_setKey_of_ne _ _ _ _ hk1]
  · have hk := setKey_keys_of_not_mem g.fields "dates"
      (Val.nlist (processGage claims g.lonArr g.latArr).1) h1
    have h2' : "num_claims" ∉ (setKey g.fields "dates"
        (Val.nlist (processGage claims g.lonArr g.latArr).1)).map
          Prod.fst := by
      rw [hk]
      simp only [List.mem_append, List.mem_singleton]
      rintro (hA | hB)
      · exact h2 hA
      · exact absurd hB (by decide)
    rw [hb, setKey_keys_of_not_mem _ _ _ h2', hk, List.append_assoc]
    rfl

/-- Witness for C9: the theorem at a concrete five-field gauge record. -/
theorem C9_frame_preserved_witness :
    ("dates" ∉ ([("gauge_id", Val.str "03606500"),
        ("longitude", Val.str "[-88.0, -87.9]"),
        ("latitude", Val.str "[36.0, 36.1]"),
        ("discharge", Val.num 1200),
        ("sqmi", Val.num (7 / 2))].map Prod.fst)) ∧
    ("num_claims" ∉ ([("gauge_id", Val.str "03606500"),
        ("longitude", Val.str "[-88.0, -87.9]"),
        ("latitude", Val.str "[36.0, 36.1]"),
        ("discharge", Val.num 1200),
        ("sqmi", Val.num (7 / 2))].map Prod.fst)) ∧
    ((∀ k, k ≠ "dates" → k ≠ "num_claims" →
      getKey (buildRow [] ⟨[("gauge_id", Val.str "03606500"),
        ("longitude", Val.str "[-88.0, -87.9]"),
        ("latitude", Val.str "[36.0, 36.1]"),
        ("discharge", Val.num 1200),
        ("sqmi", Val.num (7 / 2))], [], []⟩) k =
      getKey [("gauge_id", Val.str "03606500"),
        ("longitude", Val.str "[-88.0, -87.9]"),
        ("latitude", Val.str "[36.0, 36.1]"),
        ("discharge", Val.num 1200),
        ("sqmi", Val.num (7 / 2))] k) ∧
    (buildRow [] ⟨[("gauge_id", Val.str "03606500"),
        ("longitude", Val.str "[-88.0, -87.9]"),
        ("latitude", Val.str "[36.0, 36.1]"),
        ("discharge", Val.num 1200),
        ("sqmi", Val.num (7 / 2))], [], []⟩).map Prod.fst =
      [("gauge_id", Val.str "03606500"),
        ("longitude", Val.str "[-88.0, -87.9]"),
        ("latitude", Val.str "[36.0, 36.1]"),
        ("discharge", Val.num 1200),
        ("sqmi", Val.num (7 / 2))].map Prod.fst ++
        ["dates", "num_claims"]) :=
  ⟨by decide, by decide,
   C9_frame_preserved [] ⟨[("gauge_id", Val.str "03606500"),
      ("longitude", Val.str "[-88.0, -87.9]"),
      ("latitude", Val.str "[36.0, 36.1]"),
      ("discharge", Val.num 1200),
      ("sqmi", Val.num (7 / 2))], [], []⟩ (by decide) (by decide)⟩

/-- C10: when the geodesic computation fails for a row (the distance entry
is none, modelling the recorded np.inf), that row is excluded from the
find_closest_gauges output for every (finite) maxDistanceKm — the function
returns normally rather than raising. -/
theorem C10_failed_distance_excluded (s : SortValues)
    (geo : ℚ × ℚ → ℚ × ℚ → Option ℚ)
    (rows : List GRow) (t : ℚ × ℚ) (maxKm : ℚ) (r : GRow)
    (hr : distOf geo t r = none) :
    ∀ x ∈ find_closest_gauges s geo rows t maxKm, x.row ≠ r := by
  intro x hx hxr
  unfold find_closest_gauges at hx
  have hx' := (s.2 _).1.mem_iff.mp hx
  have hcond := List.of_mem_filter hx'
  have hmem := List.mem_of_mem_filter hx'
  obtain ⟨r', hr', hEq⟩ := List.mem_map.mp hmem
  rw [← hEq] at hxr hcond
  simp only at hxr hcond
  rw [hxr, hr] at hcond
  simp at hcond

/-- Witness for C10: a geodesic routine that always fails; the sole row is
excluded. -/
theorem C10_failed_distance_excluded_witness :
    distOf (fun _ _ => none) (0, 0) ⟨1, some 0, some 0, [], [], 0⟩ = none ∧
    ∀ x ∈ find_closest_gauges sortValuesImpl (fun _ _ => none)
        [⟨1, some 0, some 0, [], [], 0⟩] (0, 0) 50,
      x.row ≠ (⟨1, some 0, some 0, [], [], 0⟩ : GRow) :=
  ⟨rfl, C10_failed_distance_excluded sortValuesImpl (fun _ _ => none)
    [⟨1, some 0, some 0, [], [], 0⟩] (0, 0) 50
    ⟨1, some 0, some 0, [], [], 0⟩ rfl⟩

end Flood
